import Mathlib

/-!
Shallow embedding of the security-monitor repository
(orchestrator `src/SecurityMonitor.js`, the five check classes,
`ReportGenerator.generateRecommendations`, and the legacy monolith
`security-monitor.js`), together with theorems settling the frozen claims.

Modelling conventions:
* JavaScript strings are Lean `String`; `String.prototype.includes` is
  `jsIncludes` (substring containment, empty substring always contained).
* JS falsy-coalescing `x || d` on numbers/strings is `jsOrNat` / `jsOrStr`
  (0 and "" are falsy); on arrays it is `jsOrList` (arrays are truthy,
  so only `undefined` falls back).
* `process.env` is an association list in `Object.entries` order.
* Filesystem and subprocess interactions are oracles in `World`:
  `Except.error m` models a thrown exception with message `m`,
  `Except.ok none` models an absent file/directory,
  `Except.ok (some _)` the successfully read content.
* A check's `run` is `Config → World → Results → Except String Results`;
  `Except.error` is an exception escaping the check.
-/

namespace SecurityMonitor

/-- Whether `sub` is a leading segment of `l`. -/
def leadSeg : List Char → List Char → Bool
  | [], _ => true
  | _ :: _, [] => false
  | a :: as, b :: bs => a == b && leadSeg as bs

/-- Whether `sub` occurs contiguously inside `l`. -/
def segOf : List Char → List Char → Bool
  | sub, [] => sub.isEmpty
  | sub, b :: bs => leadSeg sub (b :: bs) || segOf sub bs

/-- JS `s.includes(sub)`: substring containment (empty `sub` matches). -/
def jsIncludes (s sub : String) : Bool :=
  segOf sub.toList s.toList

/-- JS `s.toLowerCase()` (ASCII model): lowercase every character. -/
def jsToLower (s : String) : String := String.mk (s.data.map Char.toLower)

/-- JS `x || d` for an optional number: `undefined` and `0` are falsy. -/
def jsOrNat : Option Nat → Nat → Nat
  | none, d => d
  | some n, d => if n = 0 then d else n

/-- JS `x || d` for an optional string: `undefined` and `""` are falsy. -/
def jsOrStr : Option String → String → String
  | none, d => d
  | some s, d => if s = "" then d else s

/-- JS `x || d` for an optional array: arrays are always truthy. -/
def jsOrList : Option (List String) → List String → List String
  | none, d => d
  | some l, _ => l

/-- JS `!v` for an env-var lookup: `undefined` and `""` are falsy. -/
def jsFalsy : Option String → Bool
  | none => true
  | some s => s == ""

/-- `process.env[k]`: first binding wins (env keys are unique in practice). -/
def envLookup (env : List (String × String)) (k : String) : Option String :=
  (env.find? (fun p => p.1 == k)).map Prod.snd

inductive Status where
  | pass
  | warn
  | fail
  | error
  deriving DecidableEq, Repr

/-- A vulnerability record pushed by the dependency audit
(`DependencyAudit.js` lines 21-27). -/
structure Vuln where
  package : String
  severity : String
  title : String
  description : String
  recommendation : String
  deriving DecidableEq, Repr

/-- A recommendation record (`ReportGenerator.generateRecommendations`). -/
structure Recommendation where
  priority : String
  category : String
  title : String
  description : String
  deriving DecidableEq, Repr

/-- `severityThresholds` object: absent fields are `none`. -/
structure Thresholds where
  critical : Option Nat
  high : Option Nat
  moderate : Option Nat
  low : Option Nat
  deriving DecidableEq, Repr

/-- `config.checks.dependencyAudit`. -/
structure DepAuditCfg where
  enabled : Bool
  severityThresholds : Option Thresholds
  deriving DecidableEq, Repr

/-- `config.checks.environmentVariables`; `insecurePatterns` models the
nested access `envConfig.patterns?.insecure`. -/
structure EnvCfg where
  enabled : Bool
  required : Option (List String)
  optionalVars : Option (List String)
  minLength : Option Nat
  insecurePatterns : Option (List String)
  deriving DecidableEq, Repr

/-- `config.checks.securityHeaders`. -/
structure HeadersCfg where
  enabled : Bool
  configFile : Option String
  required : Option (List String)
  deriving DecidableEq, Repr

/-- `config.checks.apiSecurity`. -/
structure ApiCfg where
  enabled : Bool
  apiDirectory : Option String
  filePatterns : Option (List String)
  authMiddleware : Option (List String)
  validationMiddleware : Option (List String)
  deriving DecidableEq, Repr

/-- `config.checks.databaseSecurity`. -/
structure DbCfg where
  enabled : Bool
  configFile : Option String
  checks : Option (List String)
  deriving DecidableEq, Repr

/-- `config.output`. -/
structure OutputCfg where
  includeRecommendations : Bool
  deriving DecidableEq, Repr

/-- The run configuration; the five per-check settings objects of
`config.checks` are flattened into optional fields (absent object = `none`,
matching the `config.checks[name]?.enabled` optional chains). -/
structure Config where
  packageManager : Option String
  dependencyAudit : Option DepAuditCfg
  environmentVariables : Option EnvCfg
  securityHeaders : Option HeadersCfg
  apiSecurity : Option ApiCfg
  databaseSecurity : Option DbCfg
  output : Option OutputCfg
  deriving DecidableEq, Repr

/-- One parsed entry of the audit tool's `vulnerabilities` object. -/
structure VulnInfo where
  severity : String
  title : String
  description : String
  recommendation : String
  deriving DecidableEq, Repr

/-- A filesystem tree node: file leaves carry their textual content,
directories carry their children in filesystem enumeration order. -/
inductive Entry where
  | file (name content : String) : Entry
  | dir (name : String) (children : List Entry) : Entry

/-- The external state a run observes. `audit` is the outcome of
`execSync` + `JSON.parse` (its `vulnerabilities` object as an entry list,
`none` when the JSON lacks that key); the three file oracles model
exists/read of the headers config file, the API directory tree, and the
database config file. -/
structure World where
  env : List (String × String)
  audit : Except String (Option (List (String × VulnInfo)))
  headersFile : Except String (Option String)
  apiTree : Except String (Option (List Entry))
  dbFile : Except String (Option String)

inductive CheckName where
  | dependencyAudit
  | environmentVariables
  | securityHeaders
  | apiSecurity
  | databaseSecurity
  deriving DecidableEq, Repr

/-- The closed set of outcome-record shapes written to `results.checks`. -/
inductive Outcome where
  | errorOut (msg : String)
  | depAudit (status : Status) (nVulns critical high moderate low : Nat)
      (thresholds : Thresholds)
  | envVars (status : Status) (missing insecure : List String) (checked : Nat)
  | headersNoFile
  | headersOut (status : Status) (missing : List String) (configFile : String)
  | apiNoDir
  | apiOut (status : Status)
      (unprotectedEndpoints missingValidation totalFiles : Nat)
  | dbNoFile
  | dbOut (status : Status) (issues : List String) (configFile : String)
  deriving DecidableEq, Repr

/-- The `status` field carried by every outcome shape
(the sentinel shapes carry the literal `'warn'` / `'error'`). -/
def Outcome.status : Outcome → Status
  | .errorOut _ => .error
  | .depAudit s _ _ _ _ _ _ => s
  | .envVars s _ _ _ => s
  | .headersNoFile => .warn
  | .headersOut s _ _ => s
  | .apiNoDir => .warn
  | .apiOut s _ _ _ => s
  | .dbNoFile => .warn
  | .dbOut s _ _ => s

/-- `results.checks`: one optional outcome slot per fixed check name. -/
structure ChecksMap where
  dependencyAudit : Option Outcome
  environmentVariables : Option Outcome
  securityHeaders : Option Outcome
  apiSecurity : Option Outcome
  databaseSecurity : Option Outcome
  deriving DecidableEq, Repr

def ChecksMap.get (m : ChecksMap) : CheckName → Option Outcome
  | .dependencyAudit => m.dependencyAudit
  | .environmentVariables => m.environmentVariables
  | .securityHeaders => m.securityHeaders
  | .apiSecurity => m.apiSecurity
  | .databaseSecurity => m.databaseSecurity

def ChecksMap.set (m : ChecksMap) : CheckName → Outcome → ChecksMap
  | .dependencyAudit, o => { m with dependencyAudit := some o }
  | .environmentVariables, o => { m with environmentVariables := some o }
  | .securityHeaders, o => { m with securityHeaders := some o }
  | .apiSecurity, o => { m with apiSecurity := some o }
  | .databaseSecurity, o => { m with databaseSecurity := some o }

def ChecksMap.empty : ChecksMap := ⟨none, none, none, none, none⟩

/-- The shared result accumulator (`this.results`); `timestamp` and
`project` are run-constant copies and are omitted. -/
structure Results where
  checks : ChecksMap
  vulnerabilities : List Vuln
  warnings : List String
  recommendations : List Recommendation
  deriving DecidableEq, Repr

def emptyResults : Results := ⟨ChecksMap.empty, [], [], []⟩

/-!  ### File discovery (`ApiSecurity.findApiFiles`)

`findApiFiles` does a depth-first walk: at each directory it visits children
in enumeration order, recursing into subdirectories immediately and
collecting a file when `filePatterns.includes(item)` (exact string equality
of the filename).  We collect `(fullPath, content)` pairs; paths are joined
with `"/"`. -/

mutual

def filesOfEntry (patterns : List String) (cur : String) : Entry → List (String × String)
  | .file n c => if patterns.contains n then [(cur ++ "/" ++ n, c)] else []
  | .dir n ch => filesOfList patterns (cur ++ "/" ++ n) ch

def filesOfList (patterns : List String) (cur : String) : List Entry → List (String × String)
  | [] => []
  | e :: rest => filesOfEntry patterns cur e ++ filesOfList patterns cur rest

end

/-!  ### The five checks (modular classes under `src/checks/`)

Each `run` first re-checks its own enabled flag
(`this.config.checks.<name>?.enabled`), exactly as the classes do. -/

/-- The vulnerability records pushed for the audit JSON's
`vulnerabilities` entries (DependencyAudit.js lines 19-29). -/
def auditVulns (entries : List (String × VulnInfo)) : List Vuln :=
  entries.map fun e =>
    Vuln.mk e.1 e.2.severity e.2.title e.2.description e.2.recommendation

/-- The `exceedsThresholds` condition of the dependency audit
(DependencyAudit.js lines 38-42): JS `thresholds.<tier> || default`
treats both an absent and a zero threshold as the default. -/
def depExceeds (vulns : List Vuln) (th : Thresholds) : Bool :=
  (vulns.filter fun v => v.severity == "critical").length > jsOrNat th.critical 0 ||
  (vulns.filter fun v => v.severity == "high").length > jsOrNat th.high 0 ||
  (vulns.filter fun v => v.severity == "moderate").length > jsOrNat th.moderate 5 ||
  (vulns.filter fun v => v.severity == "low").length > jsOrNat th.low 10

/-- The outcome record the dependency audit writes on a successful audit
(DependencyAudit.js lines 44-52). -/
def depOutcome (vulns : List Vuln) (th : Thresholds) : Outcome :=
  .depAudit (if depExceeds vulns th then .fail else .pass)
    vulns.length
    (vulns.filter fun v => v.severity == "critical").length
    (vulns.filter fun v => v.severity == "high").length
    (vulns.filter fun v => v.severity == "moderate").length
    (vulns.filter fun v => v.severity == "low").length
    th

/-- `DependencyAudit.run` (src/checks/DependencyAudit.js).  The subprocess
invocation and JSON parse are the `w.audit` oracle; the surrounding
`try`/`catch` turns an oracle error into an `'error'` outcome record, so
this check never lets an exception escape. -/
def DependencyAudit.run (cfg : Config) (w : World) (r : Results) : Except String Results :=
  match cfg.dependencyAudit with
  | none => .ok r
  | some da =>
    if !da.enabled then .ok r else
    match w.audit with
    | .error m =>
        .ok { r with checks := r.checks.set .dependencyAudit (.errorOut m) }
    | .ok data =>
        let newVulns := match data with
          | none => []
          | some entries => auditVulns entries
        let vulns := r.vulnerabilities ++ newVulns
        let th := (da.severityThresholds).getD (Thresholds.mk none none none none)
        .ok { r with
          vulnerabilities := vulns,
          checks := r.checks.set .dependencyAudit (depOutcome vulns th) }

/-- The required-variables loop of `EnvironmentVariables.run`: variables
pushed to `missingVars` (`!process.env[varName]`). -/
def missingRequired (env : List (String × String)) (requiredVars : List String) : List String :=
  requiredVars.filter fun v => jsFalsy (envLookup env v)

/-- The required-variables loop of `EnvironmentVariables.run`: variables
pushed to `insecureVars` by the `else if (length < minLength)` branch. -/
def shortRequired (env : List (String × String)) (requiredVars : List String)
    (minLength : Nat) : List String :=
  requiredVars.filter fun v =>
    match envLookup env v with
    | none => false
    | some val => !(val == "") && decide (val.length < minLength)

/-- The all-variables loop of `EnvironmentVariables.run`: every env entry
whose (truthy) value lowercased contains some configured pattern and is
shorter than `minLength * 2` is pushed to `insecureVars`. -/
def patternFlagged (env : List (String × String)) (insecurePatterns : List String)
    (minLength : Nat) : List String :=
  (env.filter fun p =>
      !(p.2 == "") &&
      insecurePatterns.any (fun pat => jsIncludes (jsToLower p.2) pat) &&
      decide (p.2.length < minLength * 2)).map Prod.fst

/-- `EnvironmentVariables.run` (src/checks/EnvironmentVariables.js). -/
def EnvironmentVariables.run (cfg : Config) (w : World) (r : Results) : Except String Results :=
  match cfg.environmentVariables with
  | none => .ok r
  | some ec =>
    if !ec.enabled then .ok r else
    let requiredVars := jsOrList ec.required []
    let optionalVars := jsOrList ec.optionalVars []
    let minLength := jsOrNat ec.minLength 10
    let insecurePatterns := jsOrList ec.insecurePatterns ["password", "secret", "key"]
    let missingVars := missingRequired w.env requiredVars
    let insecureVars :=
      shortRequired w.env requiredVars minLength ++
      patternFlagged w.env insecurePatterns minLength
    let out := Outcome.envVars
      (if missingVars.length = 0 ∧ insecureVars.length = 0 then .pass else .warn)
      missingVars insecureVars (requiredVars.length + optionalVars.length)
    .ok { r with checks := r.checks.set .environmentVariables out }

/-- `SecurityHeaders.run` (src/checks/SecurityHeaders.js).  An oracle error
models `fs.readFileSync` throwing; the check has no `try`/`catch`, so the
exception escapes. -/
def SecurityHeaders.run (cfg : Config) (w : World) (r : Results) : Except String Results :=
  match cfg.securityHeaders with
  | none => .ok r
  | some hc =>
    if !hc.enabled then .ok r else
    let configFile := jsOrStr hc.configFile "next.config.mjs"
    match w.headersFile with
    | .error m => .error m
    | .ok none =>
        .ok { r with
          warnings := r.warnings ++ [configFile ++ " not found"],
          checks := r.checks.set .securityHeaders .headersNoFile }
    | .ok (some content) =>
        let requiredHeaders := jsOrList hc.required []
        let missingHeaders := requiredHeaders.filter fun h => !jsIncludes content h
        let out := Outcome.headersOut
          (if missingHeaders.length = 0 then .pass else .warn) missingHeaders configFile
        .ok { r with checks := r.checks.set .securityHeaders out }

/-- `ApiSecurity.run` (src/checks/ApiSecurity.js).  The oracle gives the
children of the API directory; an oracle error models a throw anywhere in
the traversal or the per-file reads (uncaught in the check). -/
def ApiSecurity.run (cfg : Config) (w : World) (r : Results) : Except String Results :=
  match cfg.apiSecurity with
  | none => .ok r
  | some ac =>
    if !ac.enabled then .ok r else
    let apiDirectory := jsOrStr ac.apiDirectory "app/api"
    match w.apiTree with
    | .error m => .error m
    | .ok none =>
        .ok { r with
          warnings := r.warnings ++ ["API directory not found: " ++ apiDirectory],
          checks := r.checks.set .apiSecurity .apiNoDir }
    | .ok (some children) =>
        let patterns := jsOrList ac.filePatterns ["route.ts", "route.js"]
        let apiFiles := filesOfList patterns apiDirectory children
        let authMiddleware := jsOrList ac.authMiddleware ["withAuth", "withOptionalAuth"]
        let validationMiddleware := jsOrList ac.validationMiddleware ["withValidation", "zod"]
        let unprotectedEndpoints := apiFiles.filter fun f =>
          !authMiddleware.any fun m => jsIncludes f.2 m
        let missingValidation := apiFiles.filter fun f =>
          !validationMiddleware.any fun m => jsIncludes f.2 m
        let out := Outcome.apiOut
          (if unprotectedEndpoints.length = 0 then .pass else .warn)
          unprotectedEndpoints.length missingValidation.length apiFiles.length
        .ok { r with checks := r.checks.set .apiSecurity out }

/-- `DatabaseSecurity.run` (src/checks/DatabaseSecurity.js). -/
def DatabaseSecurity.run (cfg : Config) (w : World) (r : Results) : Except String Results :=
  match cfg.databaseSecurity with
  | none => .ok r
  | some dc =>
    if !dc.enabled then .ok r else
    let configFile := jsOrStr dc.configFile "lib/database.ts"
    match w.dbFile with
    | .error m => .error m
    | .ok none =>
        .ok { r with
          warnings := r.warnings ++ ["Database configuration not found: " ++ configFile],
          checks := r.checks.set .databaseSecurity .dbNoFile }
    | .ok (some content) =>
        let checksList := jsOrList dc.checks ["sslValidation", "connectionLimits", "timeouts"]
        let securityIssues :=
          (if checksList.contains "sslValidation" &&
              jsIncludes content "rejectUnauthorized: false"
           then ["SSL certificate validation disabled"] else []) ++
          (if checksList.contains "connectionLimits" &&
              (!jsIncludes content "max:" || !jsIncludes content "min:")
           then ["Connection pool limits not configured"] else []) ++
          (if checksList.contains "timeouts" && !jsIncludes content "timeout"
           then ["Query timeouts not configured"] else [])
        let out := Outcome.dbOut
          (if securityIssues.length = 0 then .pass else .warn) securityIssues configFile
        .ok { r with checks := r.checks.set .databaseSecurity out }

/-!  ### Orchestrator (src/SecurityMonitor.js) -/

/-- Dispatch from check name to the check's `run`. -/
def runCheck : CheckName → Config → World → Results → Except String Results
  | .dependencyAudit => DependencyAudit.run
  | .environmentVariables => EnvironmentVariables.run
  | .securityHeaders => SecurityHeaders.run
  | .apiSecurity => ApiSecurity.run
  | .databaseSecurity => DatabaseSecurity.run

/-- `this.config.checks[checkName]?.enabled` as seen by the orchestrator. -/
def Config.enabledFor (cfg : Config) : CheckName → Bool
  | .dependencyAudit => (cfg.dependencyAudit.map DepAuditCfg.enabled).getD false
  | .environmentVariables => (cfg.environmentVariables.map EnvCfg.enabled).getD false
  | .securityHeaders => (cfg.securityHeaders.map HeadersCfg.enabled).getD false
  | .apiSecurity => (cfg.apiSecurity.map ApiCfg.enabled).getD false
  | .databaseSecurity => (cfg.databaseSecurity.map DbCfg.enabled).getD false

/-- `Object.entries(this.checks)` insertion order (same fixed order in the
legacy monolith's `run`). -/
def checkOrder : List CheckName :=
  [.dependencyAudit, .environmentVariables, .securityHeaders,
   .apiSecurity, .databaseSecurity]

/-- One iteration of the modular orchestrator's loop: skip when disabled,
otherwise invoke the check and catch any escaping error as
`{ status: 'error', error: message }` under that check's own name. -/
def modularStep (cfg : Config) (w : World) (r : Results) (c : CheckName) : Results :=
  if cfg.enabledFor c then
    match runCheck c cfg w r with
    | .ok r2 => r2
    | .error m => { r with checks := r.checks.set c (.errorOut m) }
  else r

/-- The modular orchestrator's check loop over the fixed order. -/
def modularChecks (cfg : Config) (w : World) : Results :=
  checkOrder.foldl (modularStep cfg w) emptyResults

/-!  ### Recommendation deriver (`ReportGenerator.generateRecommendations`)

The five gates are the JS optional-chain conditions.  Note that
`checks.securityHeaders?.missing?.length > 0` also fires on the sentinel
shape `{ status: 'warn', missing: 'config_file' }`, because the JS string
`'config_file'` has `.length` 11; the `missingLen` accessor models that. -/

/-- The value of the JS access `<outcome>.missing?.length`
(`none` when the shape has no `missing` field or it is not indexable). -/
def Outcome.missingLen : Outcome → Option Nat
  | .envVars _ missing _ _ => some missing.length
  | .headersNoFile => some ("config_file".length)
  | .headersOut _ missing _ => some missing.length
  | .apiNoDir => some ("api_directory".length)
  | .dbNoFile => some ("config_file".length)
  | _ => none

/-- The value of the JS access `<outcome>.unprotectedEndpoints`. -/
def Outcome.unprotectedLen : Outcome → Option Nat
  | .apiOut _ u _ _ => some u
  | _ => none

/-- The value of the JS access `<outcome>.issues?.length`. -/
def Outcome.issuesLen : Outcome → Option Nat
  | .dbOut _ issues _ => some issues.length
  | _ => none

/-- JS `x > 0` where `x` may be `undefined` (`undefined > 0` is false). -/
def jsGtZero : Option Nat → Bool
  | none => false
  | some n => decide (0 < n)

/-- Gate for the dependencies recommendation:
`results.vulnerabilities.length > 0`. -/
def depGate (r : Results) : Bool := decide (0 < r.vulnerabilities.length)

/-- Gate for the environment recommendation:
`results.checks.environmentVariables?.missing?.length > 0`. -/
def envGate (r : Results) : Bool :=
  match r.checks.get .environmentVariables with
  | none => false
  | some o => jsGtZero o.missingLen

/-- Gate for the api recommendation:
`results.checks.apiSecurity?.unprotectedEndpoints > 0`. -/
def apiGate (r : Results) : Bool :=
  match r.checks.get .apiSecurity with
  | none => false
  | some o => jsGtZero o.unprotectedLen

/-- Gate for the headers recommendation:
`results.checks.securityHeaders?.missing?.length > 0`. -/
def headersGate (r : Results) : Bool :=
  match r.checks.get .securityHeaders with
  | none => false
  | some o => jsGtZero o.missingLen

/-- Gate for the database recommendation:
`results.checks.databaseSecurity?.issues?.length > 0`. -/
def dbGate (r : Results) : Bool :=
  match r.checks.get .databaseSecurity with
  | none => false
  | some o => jsGtZero o.issuesLen

/-- The list of recommendations appended by
`ReportGenerator.generateRecommendations` once enabled, in source order. -/
def derivedRecs (cfg : Config) (r : Results) : List Recommendation :=
  let pm := jsOrStr cfg.packageManager "npm"
  (if depGate r then
    [⟨"high", "dependencies", "Update vulnerable dependencies",
      "Found " ++ toString r.vulnerabilities.length ++
      " vulnerabilities. Run \x27" ++ pm ++ " update\x27 to fix them."⟩] else []) ++
  (if envGate r then
    [⟨"high", "environment", "Configure missing environment variables",
      "Set up all required environment variables for production deployment."⟩] else []) ++
  (if apiGate r then
    [⟨"high", "api", "Protect API endpoints",
      "Add authentication middleware to all sensitive API endpoints."⟩] else []) ++
  (if headersGate r then
    [⟨"medium", "headers", "Implement security headers",
      "Add comprehensive security headers to prevent common attacks."⟩] else []) ++
  (if dbGate r then
    [⟨"medium", "database", "Improve database security",
      "Configure proper SSL settings and connection limits."⟩] else [])

/-- `generateRecommendations`: no-op unless
`config.output?.includeRecommendations` is truthy. -/
def generateRecommendations (cfg : Config) (r : Results) : Results :=
  match cfg.output with
  | none => r
  | some o =>
    if !o.includeRecommendations then r
    else { r with recommendations := r.recommendations ++ derivedRecs cfg r }

/-- A full modular run's accumulator: the check loop followed by the
recommendation deriver.  (`generateReport` only serializes the accumulator
verbatim and prints; it performs no accumulator mutation.) -/
def modularRun (cfg : Config) (w : World) : Results :=
  generateRecommendations cfg (modularChecks cfg w)

/-!  ### Legacy monolithic implementation (`security-monitor.js`)

The monolith's five check methods and its `generateRecommendations` are
embedded separately below, from their own source text (they happen to be
line-for-line identical to the modular classes).  Its `run()` method differs in
one way that matters: the orchestrating loop has **no** `try`/`catch`, so
an exception escaping a check method rejects the whole run. -/

/-- `SecurityMonitor.runDependencyAudit` from the legacy monolith
(lines 60-115). -/
def legacyDependencyAudit (cfg : Config) (w : World) (r : Results) : Except String Results :=
  match cfg.dependencyAudit with
  | none => .ok r
  | some da =>
    if !da.enabled then .ok r else
    match w.audit with
    | .error m =>
        .ok { r with checks := r.checks.set .dependencyAudit (.errorOut m) }
    | .ok data =>
        let newVulns := match data with
          | none => []
          | some entries => auditVulns entries
        let vulns := r.vulnerabilities ++ newVulns
        let th := (da.severityThresholds).getD (Thresholds.mk none none none none)
        .ok { r with
          vulnerabilities := vulns,
          checks := r.checks.set .dependencyAudit (depOutcome vulns th) }

/-- `SecurityMonitor.checkEnvironmentVariables` from the legacy monolith
(lines 117-166). -/
def legacyEnvironmentVariables (cfg : Config) (w : World) (r : Results) : Except String Results :=
  match cfg.environmentVariables with
  | none => .ok r
  | some ec =>
    if !ec.enabled then .ok r else
    let requiredVars := jsOrList ec.required []
    let optionalVars := jsOrList ec.optionalVars []
    let minLength := jsOrNat ec.minLength 10
    let insecurePatterns := jsOrList ec.insecurePatterns ["password", "secret", "key"]
    let missingVars := missingRequired w.env requiredVars
    let insecureVars :=
      shortRequired w.env requiredVars minLength ++
      patternFlagged w.env insecurePatterns minLength
    let out := Outcome.envVars
      (if missingVars.length = 0 ∧ insecureVars.length = 0 then .pass else .warn)
      missingVars insecureVars (requiredVars.length + optionalVars.length)
    .ok { r with checks := r.checks.set .environmentVariables out }

/-- `SecurityMonitor.checkSecurityHeaders` from the legacy monolith
(lines 168-202). -/
def legacySecurityHeaders (cfg : Config) (w : World) (r : Results) : Except String Results :=
  match cfg.securityHeaders with
  | none => .ok r
  | some hc =>
    if !hc.enabled then .ok r else
    let configFile := jsOrStr hc.configFile "next.config.mjs"
    match w.headersFile with
    | .error m => .error m
    | .ok none =>
        .ok { r with
          warnings := r.warnings ++ [configFile ++ " not found"],
          checks := r.checks.set .securityHeaders .headersNoFile }
    | .ok (some content) =>
        let requiredHeaders := jsOrList hc.required []
        let missingHeaders := requiredHeaders.filter fun h => !jsIncludes content h
        let out := Outcome.headersOut
          (if missingHeaders.length = 0 then .pass else .warn) missingHeaders configFile
        .ok { r with checks := r.checks.set .securityHeaders out }

/-- `SecurityMonitor.checkApiSecurity` from the legacy monolith
(lines 204-251); `findApiFiles` (lines 253-273) is the same traversal as the
modular class's, embedded once as `filesOfList`. -/
def legacyApiSecurity (cfg : Config) (w : World) (r : Results) : Except String Results :=
  match cfg.apiSecurity with
  | none => .ok r
  | some ac =>
    if !ac.enabled then .ok r else
    let apiDirectory := jsOrStr ac.apiDirectory "app/api"
    match w.apiTree with
    | .error m => .error m
    | .ok none =>
        .ok { r with
          warnings := r.warnings ++ ["API directory not found: " ++ apiDirectory],
          checks := r.checks.set .apiSecurity .apiNoDir }
    | .ok (some children) =>
        let patterns := jsOrList ac.filePatterns ["route.ts", "route.js"]
        let apiFiles := filesOfList patterns apiDirectory children
        let authMiddleware := jsOrList ac.authMiddleware ["withAuth", "withOptionalAuth"]
        let validationMiddleware := jsOrList ac.validationMiddleware ["withValidation", "zod"]
        let unprotectedEndpoints := apiFiles.filter fun f =>
          !authMiddleware.any fun m => jsIncludes f.2 m
        let missingValidation := apiFiles.filter fun f =>
          !validationMiddleware.any fun m => jsIncludes f.2 m
        let out := Outcome.apiOut
          (if unprotectedEndpoints.length = 0 then .pass else .warn)
          unprotectedEndpoints.length missingValidation.length apiFiles.length
        .ok { r with checks := r.checks.set .apiSecurity out }

/-- `SecurityMonitor.checkDatabaseSecurity` from the legacy monolith
(lines 275-320). -/
def legacyDatabaseSecurity (cfg : Config) (w : World) (r : Results) : Except String Results :=
  match cfg.databaseSecurity with
  | none => .ok r
  | some dc =>
    if !dc.enabled then .ok r else
    let configFile := jsOrStr dc.configFile "lib/database.ts"
    match w.dbFile with
    | .error m => .error m
    | .ok none =>
        .ok { r with
          warnings := r.warnings ++ ["Database configuration not found: " ++ configFile],
          checks := r.checks.set .databaseSecurity .dbNoFile }
    | .ok (some content) =>
        let checksList := jsOrList dc.checks ["sslValidation", "connectionLimits", "timeouts"]
        let securityIssues :=
          (if checksList.contains "sslValidation" &&
              jsIncludes content "rejectUnauthorized: false"
           then ["SSL certificate validation disabled"] else []) ++
          (if checksList.contains "connectionLimits" &&
              (!jsIncludes content "max:" || !jsIncludes content "min:")
           then ["Connection pool limits not configured"] else []) ++
          (if checksList.contains "timeouts" && !jsIncludes content "timeout"
           then ["Query timeouts not configured"] else [])
        let out := Outcome.dbOut
          (if securityIssues.length = 0 then .pass else .warn) securityIssues configFile
        .ok { r with checks := r.checks.set .databaseSecurity out }

/-- Dispatch for the legacy monolith's check methods. -/
def legacyCheck : CheckName → Config → World → Results → Except String Results
  | .dependencyAudit => legacyDependencyAudit
  | .environmentVariables => legacyEnvironmentVariables
  | .securityHeaders => legacySecurityHeaders
  | .apiSecurity => legacyApiSecurity
  | .databaseSecurity => legacyDatabaseSecurity

/-- One step of the legacy `run()` (lines 415-443): the enabled guard, then
the plain `await` with **no** surrounding `try`/`catch` — an escaping
exception propagates and aborts the run. -/
def legacyStep (cfg : Config) (w : World) (r : Results) (c : CheckName) : Except String Results :=
  if cfg.enabledFor c then legacyCheck c cfg w r else .ok r

/-- The legacy monolith's full `run()`: the five checks in the same fixed
order, then its own `generateRecommendations` (lines 322-380, identical text
to the ReportGenerator's). -/
def legacyRun (cfg : Config) (w : World) : Except String Results := do
  let r ← checkOrder.foldlM (legacyStep cfg w) emptyResults
  return generateRecommendations cfg r

/-- The outcome slot a single check leaves under its own name when run
from an empty accumulator (the state in which the orchestrator always
reaches it, since the dependency audit runs first and is the only writer
of `vulnerabilities`). -/
def soloOutcome (c : CheckName) (cfg : Config) (w : World) : Option Outcome :=
  (modularStep cfg w emptyResults c).checks.get c

/-!  ### Basic lemmas about the accumulator and the orchestrator loop -/

theorem ChecksMap.get_set_self (m : ChecksMap) (c : CheckName) (o : Outcome) :
    (m.set c o).get c = some o := by
  cases c <;> rfl

theorem ChecksMap.get_set_ne (m : ChecksMap) (c c₂ : CheckName) (o : Outcome)
    (h : c₂ ≠ c) : (m.set c o).get c₂ = m.get c₂ := by
  cases c <;> cases c₂ <;> simp_all [ChecksMap.get, ChecksMap.set]

/-- A successful check invocation leaves `recommendations` untouched,
writes no slot but its own, and (for every check except the dependency
audit) leaves `vulnerabilities` untouched. -/
theorem runCheck_ok_fields (c : CheckName) (cfg : Config) (w : World) (r r2 : Results)
    (h : runCheck c cfg w r = .ok r2) :
    r2.recommendations = r.recommendations ∧
    (∀ c₂, c₂ ≠ c → r2.checks.get c₂ = r.checks.get c₂) ∧
    (c ≠ .dependencyAudit → r2.vulnerabilities = r.vulnerabilities) := by
  have hset : ∀ (m : ChecksMap) (o : Outcome) (c₂ : CheckName), c₂ ≠ c →
      (m.set c o).get c₂ = m.get c₂ :=
    fun m o c₂ hne => ChecksMap.get_set_ne m c c₂ o hne
  cases c <;>
    (simp only [runCheck, DependencyAudit.run, EnvironmentVariables.run, SecurityHeaders.run,
      ApiSecurity.run, DatabaseSecurity.run] at h) <;>
    (repeat' split at h) <;>
    (cases h) <;> simp_all

/-- A check step never touches any slot but its own. -/
theorem step_get_ne (cfg : Config) (w : World) (r : Results) (c c₂ : CheckName)
    (h : c₂ ≠ c) :
    (modularStep cfg w r c).checks.get c₂ = r.checks.get c₂ := by
  by_cases he : cfg.enabledFor c
  · simp only [modularStep, he, if_true]
    cases hr : runCheck c cfg w r with
    | ok r2 => exact (runCheck_ok_fields c cfg w r r2 hr).2.1 c₂ h
    | error m => exact ChecksMap.get_set_ne r.checks c c₂ _ h
  · simp [modularStep, he]

/-- A disabled check is skipped outright: the accumulator is untouched. -/
theorem step_disabled (cfg : Config) (w : World) (r : Results) (c : CheckName)
    (h : cfg.enabledFor c = false) : modularStep cfg w r c = r := by
  simp [modularStep, h]

/-- No check step appends recommendations. -/
theorem step_recommendations (cfg : Config) (w : World) (r : Results) (c : CheckName) :
    (modularStep cfg w r c).recommendations = r.recommendations := by
  by_cases he : cfg.enabledFor c
  · simp only [modularStep, he, if_true]
    cases hr : runCheck c cfg w r with
    | ok r2 => exact (runCheck_ok_fields c cfg w r r2 hr).1
    | error m => rfl
  · simp [modularStep, he]

/-- Only the dependency audit ever appends vulnerabilities: steps of the
other four checks keep `vulnerabilities`. -/
theorem step_vulnerabilities (cfg : Config) (w : World) (r : Results) (c : CheckName)
    (h : c ≠ .dependencyAudit) :
    (modularStep cfg w r c).vulnerabilities = r.vulnerabilities := by
  by_cases he : cfg.enabledFor c
  · simp only [modularStep, he, if_true]
    cases hr : runCheck c cfg w r with
    | ok r2 => exact (runCheck_ok_fields c cfg w r r2 hr).2.2 h
    | error m => rfl
  · simp [modularStep, he]

/-- The slot a check writes under its own name does not depend on the
incoming accumulator (provided no vulnerabilities and no slot of its own
were accumulated before it, which is how the orchestrator reaches it). -/
theorem step_get_self (cfg : Config) (w : World) (r : Results) (c : CheckName)
    (hv : c = .dependencyAudit → r.vulnerabilities = []) (hc : r.checks.get c = none) :
    (modularStep cfg w r c).checks.get c = soloOutcome c cfg w := by
  by_cases he : cfg.enabledFor c
  case neg =>
    rw [step_disabled cfg w r c (by simp_all), hc]
    simp only [soloOutcome, step_disabled cfg w emptyResults c (by simp_all)]
    cases c <;> rfl
  case pos =>
    simp only [soloOutcome, modularStep, he, if_true]
    cases c
    case dependencyAudit =>
      simp only [runCheck, DependencyAudit.run]
      rcases hx : cfg.dependencyAudit with _ | da <;> simp only []
      · exact hc.trans rfl
      · by_cases hda : da.enabled
        · simp only [hda, Bool.not_true, Bool.false_eq_true, if_false]
          rcases ha : w.audit with m | data <;>
            simp [ChecksMap.get_set_self, emptyResults, hv rfl]
        · simp only [hda]
          simp [emptyResults, ChecksMap.empty, ChecksMap.get]
          exact hc
    case environmentVariables =>
      simp only [runCheck, EnvironmentVariables.run]
      rcases hx : cfg.environmentVariables with _ | ec <;> simp only []
      · exact hc.trans rfl
      · by_cases hec : ec.enabled
        · simp [hec, ChecksMap.get_set_self]
        · simp [hec, emptyResults, ChecksMap.empty, ChecksMap.get]
          exact hc
    case securityHeaders =>
      simp only [runCheck, SecurityHeaders.run]
      rcases hx : cfg.securityHeaders with _ | sc <;> simp only []
      · exact hc.trans rfl
      · by_cases hsc : sc.enabled
        · simp only [hsc, Bool.not_true, Bool.false_eq_true, if_false]
          rcases hh : w.headersFile with m | f
          · rfl
          · rcases f with _ | content <;> simp [ChecksMap.get_set_self]
        · simp [hsc, emptyResults, ChecksMap.empty, ChecksMap.get]
          exact hc
    case apiSecurity =>
      simp only [runCheck, ApiSecurity.run]
      rcases hx : cfg.apiSecurity with _ | ac <;> simp only []
      · exact hc.trans rfl
      · by_cases hac : ac.enabled
        · simp only [hac, Bool.not_true, Bool.false_eq_true, if_false]
          rcases ht : w.apiTree with m | t
          · rfl
          · rcases t with _ | children <;> simp [ChecksMap.get_set_self]
        · simp [hac, emptyResults, ChecksMap.empty, ChecksMap.get]
          exact hc
    case databaseSecurity =>
      simp only [runCheck, DatabaseSecurity.run]
      rcases hx : cfg.databaseSecurity with _ | dc <;> simp only []
      · exact hc.trans rfl
      · by_cases hdc : dc.enabled
        · simp only [hdc, Bool.not_true, Bool.false_eq_true, if_false]
          rcases hd : w.dbFile with m | f
          · rfl
          · rcases f with _ | content <;> simp [ChecksMap.get_set_self]
        · simp [hdc, emptyResults, ChecksMap.empty, ChecksMap.get]
          exact hc


/-- What the full check loop leaves in each slot: exactly the outcome the
named check computes on its own (and nothing for a disabled check). -/
theorem modularChecks_get (cfg : Config) (w : World) (c : CheckName) :
    (modularChecks cfg w).checks.get c = soloOutcome c cfg w := by
  simp only [modularChecks, checkOrder, List.foldl]
  cases c
  case dependencyAudit =>
    rw [step_get_ne cfg w _ CheckName.databaseSecurity CheckName.dependencyAudit (by decide),
      step_get_ne cfg w _ CheckName.apiSecurity CheckName.dependencyAudit (by decide),
      step_get_ne cfg w _ CheckName.securityHeaders CheckName.dependencyAudit (by decide),
      step_get_ne cfg w _ CheckName.environmentVariables CheckName.dependencyAudit (by decide)]
    exact step_get_self cfg w emptyResults _ (fun _ => rfl) rfl
  case environmentVariables =>
    rw [step_get_ne cfg w _ CheckName.databaseSecurity CheckName.environmentVariables (by decide),
      step_get_ne cfg w _ CheckName.apiSecurity CheckName.environmentVariables (by decide),
      step_get_ne cfg w _ CheckName.securityHeaders CheckName.environmentVariables (by decide)]
    refine step_get_self cfg w _ _ (fun h => nomatch h) ?_
    rw [step_get_ne cfg w emptyResults CheckName.dependencyAudit
      CheckName.environmentVariables (by decide)]
    rfl
  case securityHeaders =>
    rw [step_get_ne cfg w _ CheckName.databaseSecurity CheckName.securityHeaders (by decide),
      step_get_ne cfg w _ CheckName.apiSecurity CheckName.securityHeaders (by decide)]
    refine step_get_self cfg w _ _ (fun h => nomatch h) ?_
    rw [step_get_ne cfg w _ CheckName.environmentVariables CheckName.securityHeaders (by decide),
      step_get_ne cfg w emptyResults CheckName.dependencyAudit CheckName.securityHeaders
        (by decide)]
    rfl
  case apiSecurity =>
    rw [step_get_ne cfg w _ CheckName.databaseSecurity CheckName.apiSecurity (by decide)]
    refine step_get_self cfg w _ _ (fun h => nomatch h) ?_
    rw [step_get_ne cfg w _ CheckName.securityHeaders CheckName.apiSecurity (by decide),
      step_get_ne cfg w _ CheckName.environmentVariables CheckName.apiSecurity (by decide),
      step_get_ne cfg w emptyResults CheckName.dependencyAudit CheckName.apiSecurity
        (by decide)]
    rfl
  case databaseSecurity =>
    refine step_get_self cfg w _ _ (fun h => nomatch h) ?_
    rw [step_get_ne cfg w _ CheckName.apiSecurity CheckName.databaseSecurity (by decide),
      step_get_ne cfg w _ CheckName.securityHeaders CheckName.databaseSecurity (by decide),
      step_get_ne cfg w _ CheckName.environmentVariables CheckName.databaseSecurity (by decide),
      step_get_ne cfg w emptyResults CheckName.dependencyAudit CheckName.databaseSecurity
        (by decide)]
    rfl

/-- A disabled check also leaves no slot when run on its own. -/
theorem soloOutcome_disabled (cfg : Config) (w : World) (c : CheckName)
    (h : cfg.enabledFor c = false) : soloOutcome c cfg w = none := by
  simp only [soloOutcome, step_disabled cfg w emptyResults c h]
  cases c <;> rfl

/-- The recommendation deriver never touches `checks`, `vulnerabilities`
or `warnings`. -/
theorem generateRecommendations_fields (cfg : Config) (r : Results) :
    (generateRecommendations cfg r).checks = r.checks ∧
    (generateRecommendations cfg r).vulnerabilities = r.vulnerabilities ∧
    (generateRecommendations cfg r).warnings = r.warnings := by
  rcases ho : cfg.output with _ | o
  · simp [generateRecommendations, ho]
  · simp only [generateRecommendations, ho]
    by_cases hi : o.includeRecommendations <;> simp [hi]

/-- The check loop never appends recommendations. -/
theorem modularChecks_recommendations (cfg : Config) (w : World) :
    (modularChecks cfg w).recommendations = [] := by
  simp only [modularChecks, checkOrder, List.foldl]
  rw [step_recommendations, step_recommendations, step_recommendations,
    step_recommendations, step_recommendations]
  rfl

/-!  ### Witness fixtures -/

/-- A configuration with every check settings object absent. -/
def cfgAllOff : Config := ⟨none, none, none, none, none, none, none⟩

/-- A world with an empty environment and no readable resources. -/
def wEmpty : World := ⟨[], .ok none, .ok none, .ok none, .ok none⟩

/-- Only the environment-variables check enabled, with no settings. -/
def cfgEnvOnly : Config :=
  ⟨none, none, some ⟨true, none, none, none, none⟩, none, none, none, none⟩

/-- Only the security-headers check enabled, with no settings. -/
def cfgHeadersOnly : Config :=
  ⟨none, none, none, some ⟨true, none, none⟩, none, none, none⟩

/-- A world in which reading the headers config file throws. -/
def wHeadersBoom : World :=
  ⟨[], .ok none, .error "EACCES: permission denied", .ok none, .ok none⟩

/-!  ### Claims -/

/-- C5: when a check's `enabled` flag is false or absent, a full run leaves
no entry under that check's name, and the check's step is the identity on
the accumulator — the skip path mutates nothing, distinguishable from a
`pass` outcome. -/
theorem disabled_check_skip_path (cfg : Config) (w : World) (c : CheckName)
    (hdis : cfg.enabledFor c = false) :
    (modularRun cfg w).checks.get c = none ∧
    (∀ r, modularStep cfg w r c = r) := by
  constructor
  · show ((generateRecommendations cfg (modularChecks cfg w)).checks).get c = none
    rw [(generateRecommendations_fields cfg (modularChecks cfg w)).1,
      modularChecks_get cfg w c, soloOutcome_disabled cfg w c hdis]
  · exact fun r => step_disabled cfg w r c hdis

/-- C5 witness: with all settings objects absent, the environment check is
skipped and mutates nothing. -/
theorem disabled_check_skip_path_witness :
    cfgAllOff.enabledFor .environmentVariables = false ∧
    (modularRun cfgAllOff wEmpty).checks.get .environmentVariables = none ∧
    modularStep cfgAllOff wEmpty emptyResults .environmentVariables = emptyResults :=
  ⟨by decide,
   (disabled_check_skip_path cfgAllOff wEmpty .environmentVariables (by decide)).1,
   (disabled_check_skip_path cfgAllOff wEmpty .environmentVariables (by decide)).2
     emptyResults⟩

/-- C6: an error escaping an enabled check is caught at the orchestrator
boundary and recorded as `{ status: 'error', error: message }` under that
check's own name; every other check's slot is exactly what that check
computes on its own, and the recommendation deriver still runs on the
loop's final accumulator. -/
theorem orchestrator_isolates_check_error (cfg : Config) (w : World) (c : CheckName)
    (m : String) (hen : cfg.enabledFor c = true)
    (herr : ∀ r, runCheck c cfg w r = Except.error m) :
    (modularRun cfg w).checks.get c = some (.errorOut m) ∧
    (∀ c₂, c₂ ≠ c → (modularRun cfg w).checks.get c₂ = soloOutcome c₂ cfg w) ∧
    modularRun cfg w = generateRecommendations cfg (modularChecks cfg w) := by
  have hchecks := (generateRecommendations_fields cfg (modularChecks cfg w)).1
  refine ⟨?_, ?_, rfl⟩
  · show ((generateRecommendations cfg (modularChecks cfg w)).checks).get c = _
    rw [hchecks, modularChecks_get cfg w c]
    simp [soloOutcome, modularStep, hen, herr emptyResults, ChecksMap.get_set_self]
  · intro c₂ _
    show ((generateRecommendations cfg (modularChecks cfg w)).checks).get c₂ = _
    rw [hchecks, modularChecks_get cfg w c₂]

/-- C6 witness: with the headers-file read throwing, the error is recorded
under `securityHeaders` and the rest of the run is unaffected. -/
theorem orchestrator_isolates_check_error_witness :
    cfgHeadersOnly.enabledFor .securityHeaders = true ∧
    (modularRun cfgHeadersOnly wHeadersBoom).checks.get .securityHeaders =
      some (.errorOut "EACCES: permission denied") ∧
    (modularRun cfgHeadersOnly wHeadersBoom).checks.get .environmentVariables =
      soloOutcome .environmentVariables cfgHeadersOnly wHeadersBoom :=
  ⟨by decide,
   (orchestrator_isolates_check_error cfgHeadersOnly wHeadersBoom .securityHeaders
     "EACCES: permission denied" (by decide) (fun _ => rfl)).1,
   (orchestrator_isolates_check_error cfgHeadersOnly wHeadersBoom .securityHeaders
     "EACCES: permission denied" (by decide) (fun _ => rfl)).2.1
     .environmentVariables (by decide)⟩

/-- C7: every populated slot's status lies in the closed set
pass/warn/fail/error, and a check's step writes only under its own name —
no different check ever overwrites another's entry. -/
theorem checks_status_closed_and_own_slot (cfg : Config) (w : World) :
    (∀ c o, (modularRun cfg w).checks.get c = some o →
      o.status = .pass ∨ o.status = .warn ∨ o.status = .fail ∨ o.status = .error) ∧
    (∀ r c c₂, c₂ ≠ c →
      (modularStep cfg w r c).checks.get c₂ = r.checks.get c₂) := by
  refine ⟨fun c o _ => ?_, fun r c c₂ h => step_get_ne cfg w r c c₂ h⟩
  rcases hs : o.status <;> simp [hs]

/-- C7 witness: a concrete populated slot has a closed-set status, and a
concrete foreign step leaves a slot unchanged. -/
theorem checks_status_closed_and_own_slot_witness :
    ((modularRun cfgEnvOnly wEmpty).checks.get .environmentVariables =
      some (.envVars .pass [] [] 0)) ∧
    ((Outcome.envVars .pass [] [] 0).status = .pass ∨
      (Outcome.envVars .pass [] [] 0).status = .warn ∨
      (Outcome.envVars .pass [] [] 0).status = .fail ∨
      (Outcome.envVars .pass [] [] 0).status = .error) ∧
    (modularStep cfgEnvOnly wEmpty emptyResults .environmentVariables).checks.get
      .apiSecurity = emptyResults.checks.get .apiSecurity :=
  ⟨by decide,
   (checks_status_closed_and_own_slot cfgEnvOnly wEmpty).1 .environmentVariables
     (.envVars .pass [] [] 0) (by decide),
   (checks_status_closed_and_own_slot cfgEnvOnly wEmpty).2 emptyResults
     .environmentVariables .apiSecurity (by decide)⟩

/-!  ### C1: dependency-audit threshold semantics -/

/-- Modelled from the spec claim wording for C1: the configured threshold
taken literally — an explicitly configured 0 is 0 — with the stated
defaults only for unconfigured tiers. -/
def specThreshold : Option Nat → Nat → Nat
  | none, d => d
  | some n, _ => n

/-- Number of discovered vulnerabilities of a given severity tier. -/
def sevCount (entries : List (String × VulnInfo)) (s : String) : Nat :=
  (entries.filter fun e => e.2.severity == s).length

theorem sevCount_vulns (entries : List (String × VulnInfo)) (s : String) :
    ((auditVulns entries).filter fun v => v.severity == s).length =
      sevCount entries s := by
  simp only [sevCount, auditVulns, ← List.countP_eq_length_filter, List.countP_map]
  rfl

/-- Dependency audit enabled with `severityThresholds.moderate`
explicitly configured to 0. -/
def cfgDepMod0 : Config :=
  ⟨none, some ⟨true, some ⟨none, none, some 0, none⟩⟩, none, none, none, none, none⟩

/-- Audit subprocess succeeds with exactly one moderate vulnerability. -/
def wOneModerate : World :=
  ⟨[], .ok (some [("pkgA", ⟨"moderate", "t", "d", "r"⟩)]), .ok none, .ok none, .ok none⟩

/-- C1 counterexample: with the moderate threshold explicitly set to 0 and
one moderate vulnerability discovered, the discovered count (1) strictly
exceeds the configured threshold (0), yet the recorded status is `pass`,
not `fail` — JS `thresholds.moderate || 5` treats the explicit 0 as absent. -/
theorem dep_threshold_zero_counterexample :
    sevCount [("pkgA", ⟨"moderate", "t", "d", "r"⟩)] "moderate" = 1 ∧
    specThreshold (Thresholds.mk none none (some 0) none).moderate 5 = 0 ∧
    (modularRun cfgDepMod0 wOneModerate).checks.get .dependencyAudit =
      some (.depAudit .pass 1 0 0 1 0 ⟨none, none, some 0, none⟩) := by
  refine ⟨by decide, by decide, by decide⟩

/-- C1 amended: the recorded status is `fail` iff some tier's discovered
count strictly exceeds its *effective* threshold, where the effective
threshold falls back to the default (critical 0, high 0, moderate 5,
low 10) when the configured value is absent *or zero* (JS falsy
coalescing); otherwise the status is `pass`. -/
theorem dep_threshold_amended (cfg : Config) (w : World) (da : DepAuditCfg)
    (entries : List (String × VulnInfo)) (r : Results)
    (hcfg : cfg.dependencyAudit = some da) (hen : da.enabled = true)
    (haud : w.audit = .ok (some entries)) (hv : r.vulnerabilities = []) :
    ∃ r2, DependencyAudit.run cfg w r = .ok r2 ∧
      r2.checks.get .dependencyAudit =
        some (depOutcome (auditVulns entries)
          (da.severityThresholds.getD ⟨none, none, none, none⟩)) ∧
      ∀ th, th = da.severityThresholds.getD ⟨none, none, none, none⟩ →
        (((depOutcome (auditVulns entries) th).status = .fail ↔
            (sevCount entries "critical" > jsOrNat th.critical 0 ∨
             sevCount entries "high" > jsOrNat th.high 0 ∨
             sevCount entries "moderate" > jsOrNat th.moderate 5 ∨
             sevCount entries "low" > jsOrNat th.low 10)) ∧
         ((depOutcome (auditVulns entries) th).status ≠ .fail →
            (depOutcome (auditVulns entries) th).status = .pass)) := by
  have hrun : DependencyAudit.run cfg w r = .ok
      { r with
        vulnerabilities := r.vulnerabilities ++ auditVulns entries,
        checks := r.checks.set .dependencyAudit
          (depOutcome (r.vulnerabilities ++ auditVulns entries)
            (da.severityThresholds.getD ⟨none, none, none, none⟩)) } := by
    simp only [DependencyAudit.run, hcfg, hen, Bool.not_true, Bool.false_eq_true,
      if_false, haud]
  rw [hv] at hrun
  simp only [List.nil_append] at hrun
  refine ⟨_, hrun, ?_, ?_⟩
  · simp [ChecksMap.get_set_self]
  · rintro th rfl
    constructor
    · by_cases hb : depExceeds (auditVulns entries)
        (da.severityThresholds.getD ⟨none, none, none, none⟩)
      · have hb2 := hb
        simp only [depExceeds, Bool.or_eq_true, decide_eq_true_eq,
          sevCount_vulns] at hb2
        simp only [depOutcome, hb, if_true, Outcome.status]
        exact iff_of_true (by trivial) (by tauto)
      · have hb2 := hb
        simp only [depExceeds, Bool.or_eq_true, decide_eq_true_eq,
          sevCount_vulns] at hb2
        simp only [depOutcome, hb, Bool.false_eq_true, if_false, Outcome.status]
        refine iff_of_false (by simp) (fun hcon => ?_)
        tauto
    · by_cases hb : depExceeds (auditVulns entries)
        (da.severityThresholds.getD ⟨none, none, none, none⟩) <;>
        simp [depOutcome, hb, Outcome.status]

/-- C1 amended witness: same fixture as the counterexample; with the
effective moderate threshold 5 the single moderate vulnerability does not
trigger `fail`. -/
theorem dep_threshold_amended_witness :
    ∃ r2, DependencyAudit.run cfgDepMod0 wOneModerate emptyResults = .ok r2 ∧
      r2.checks.get .dependencyAudit =
        some (depOutcome (auditVulns [("pkgA", ⟨"moderate", "t", "d", "r"⟩)])
          ((some (Thresholds.mk none none (some 0) none)).getD
            ⟨none, none, none, none⟩)) ∧
      ∀ th, th = (some (Thresholds.mk none none (some 0) none)).getD
          ⟨none, none, none, none⟩ →
        (((depOutcome (auditVulns [("pkgA", ⟨"moderate", "t", "d", "r"⟩)]) th).status
            = .fail ↔
            (sevCount [("pkgA", ⟨"moderate", "t", "d", "r"⟩)] "critical" >
                jsOrNat th.critical 0 ∨
             sevCount [("pkgA", ⟨"moderate", "t", "d", "r"⟩)] "high" >
                jsOrNat th.high 0 ∨
             sevCount [("pkgA", ⟨"moderate", "t", "d", "r"⟩)] "moderate" >
                jsOrNat th.moderate 5 ∨
             sevCount [("pkgA", ⟨"moderate", "t", "d", "r"⟩)] "low" >
                jsOrNat th.low 10)) ∧
         ((depOutcome (auditVulns [("pkgA", ⟨"moderate", "t", "d", "r"⟩)]) th).status
            ≠ .fail →
          (depOutcome (auditVulns [("pkgA", ⟨"moderate", "t", "d", "r"⟩)]) th).status
            = .pass)) :=
  dep_threshold_amended cfgDepMod0 wOneModerate
    ⟨true, some ⟨none, none, some 0, none⟩⟩
    [("pkgA", ⟨"moderate", "t", "d", "r"⟩)] emptyResults rfl rfl rfl rfl



/-!  ### C2: API security status -/

/-- Only the API check enabled: exact pattern `route.ts`, auth middleware
`withAuth`, validation middleware `withValidation`. -/
def cfgApiOnly : Config :=
  ⟨none, none, none, none,
   some ⟨true, none, some ["route.ts"], some ["withAuth"], some ["withValidation"]⟩,
   none, none⟩

/-- One API file that contains the auth middleware but no validation
middleware. -/
def wApiAuthNoValidation : World :=
  ⟨[], .ok none, .ok none,
   .ok (some [Entry.file "route.ts" "export default withAuth(handler)"]), .ok none⟩

/-- C2 counterexample: the discovered file lacks every configured
validation-middleware substring (`missingValidation = 1`, a gap), yet the
recorded status is `pass`, not `warn` — the code derives the status from
`unprotectedEndpoints` alone (ApiSecurity.js line 107). -/
theorem api_status_counterexample :
    (modularRun cfgApiOnly wApiAuthNoValidation).checks.get .apiSecurity =
      some (.apiOut .pass 0 1 1) ∧
    Status.pass ≠ Status.warn :=
  ⟨by decide, by decide⟩

/-- C2 amended: when the API check is enabled and the directory exists,
the recorded status is `warn` iff at least one discovered file lacks every
configured auth-middleware substring; missing validation is counted in the
outcome's `missingValidation` field but never affects the status; the
status is `pass` iff no unprotected endpoint exists. -/
theorem api_status_amended (cfg : Config) (w : World) (ac : ApiCfg)
    (children : List Entry) (r : Results)
    (hcfg : cfg.apiSecurity = some ac) (hen : ac.enabled = true)
    (htree : w.apiTree = .ok (some children)) :
    ∃ r2, ApiSecurity.run cfg w r = .ok r2 ∧
      ∀ st u mv tf, r2.checks.get .apiSecurity = some (.apiOut st u mv tf) →
        u = ((filesOfList (jsOrList ac.filePatterns ["route.ts", "route.js"])
              (jsOrStr ac.apiDirectory "app/api") children).filter fun f =>
                !(jsOrList ac.authMiddleware ["withAuth", "withOptionalAuth"]).any
                  fun m => jsIncludes f.2 m).length ∧
        mv = ((filesOfList (jsOrList ac.filePatterns ["route.ts", "route.js"])
              (jsOrStr ac.apiDirectory "app/api") children).filter fun f =>
                !(jsOrList ac.validationMiddleware ["withValidation", "zod"]).any
                  fun m => jsIncludes f.2 m).length ∧
        (st = .warn ↔ 0 < u) ∧ (st = .pass ↔ u = 0) := by
  have hrun : ApiSecurity.run cfg w r = .ok
      { r with
        checks :=
          r.checks.set .apiSecurity
            (Outcome.apiOut
              (if ((filesOfList (jsOrList ac.filePatterns ["route.ts", "route.js"])
                    (jsOrStr ac.apiDirectory "app/api") children).filter fun f =>
                      !(jsOrList ac.authMiddleware
                          ["withAuth", "withOptionalAuth"]).any
                        fun m => jsIncludes f.2 m).length = 0
               then .pass else .warn)
              ((filesOfList (jsOrList ac.filePatterns ["route.ts", "route.js"])
                (jsOrStr ac.apiDirectory "app/api") children).filter fun f =>
                  !(jsOrList ac.authMiddleware ["withAuth", "withOptionalAuth"]).any
                    fun m => jsIncludes f.2 m).length
              ((filesOfList (jsOrList ac.filePatterns ["route.ts", "route.js"])
                (jsOrStr ac.apiDirectory "app/api") children).filter fun f =>
                  !(jsOrList ac.validationMiddleware ["withValidation", "zod"]).any
                    fun m => jsIncludes f.2 m).length
              (filesOfList (jsOrList ac.filePatterns ["route.ts", "route.js"])
                (jsOrStr ac.apiDirectory "app/api") children).length) } := by
    simp only [ApiSecurity.run, hcfg, hen, Bool.not_true, Bool.false_eq_true,
      if_false, htree]
  refine ⟨_, hrun, ?_⟩
  intro st u mv tf hget
  simp only [ChecksMap.get_set_self, Option.some.injEq, Outcome.apiOut.injEq] at hget
  rcases hget with ⟨hst, hu, hmv, htf⟩
  subst hu hmv
  refine ⟨rfl, rfl, ?_, ?_⟩
  · subst hst
    split <;> rename_i hz
    · exact iff_of_false (by simp) (by omega)
    · exact iff_of_true rfl (by omega)
  · subst hst
    split <;> rename_i hz
    · exact iff_of_true rfl hz
    · exact iff_of_false (by simp) hz

/-- C2 amended witness: the counterexample fixture instantiates the
amended statement. -/
theorem api_status_amended_witness :
    ∃ r2, ApiSecurity.run cfgApiOnly wApiAuthNoValidation emptyResults = .ok r2 ∧
      ∀ st u mv tf, r2.checks.get .apiSecurity = some (.apiOut st u mv tf) →
        u = ((filesOfList (jsOrList (some ["route.ts"]) ["route.ts", "route.js"])
              (jsOrStr none "app/api")
              [Entry.file "route.ts" "export default withAuth(handler)"]).filter
                fun f => !(jsOrList (some ["withAuth"])
                    ["withAuth", "withOptionalAuth"]).any
                  fun m => jsIncludes f.2 m).length ∧
        mv = ((filesOfList (jsOrList (some ["route.ts"]) ["route.ts", "route.js"])
              (jsOrStr none "app/api")
              [Entry.file "route.ts" "export default withAuth(handler)"]).filter
                fun f => !(jsOrList (some ["withValidation"])
                    ["withValidation", "zod"]).any
                  fun m => jsIncludes f.2 m).length ∧
        (st = .warn ↔ 0 < u) ∧ (st = .pass ↔ u = 0) :=
  api_status_amended cfgApiOnly wApiAuthNoValidation
    ⟨true, none, some ["route.ts"], some ["withAuth"], some ["withValidation"]⟩
    [Entry.file "route.ts" "export default withAuth(handler)"]
    emptyResults rfl rfl rfl

/-!  ### C3: environment check pass condition -/

/-- Environment check enabled with one required variable `A`. -/
def cfgEnvReq : Config :=
  ⟨none, none, some ⟨true, some ["A"], none, none, none⟩, none, none, none, none⟩

/-- `A` is clean, but an unrelated variable `B` holds a short value
containing `secret`. -/
def wEnvExtra : World :=
  ⟨[("A", "abcdefghij"), ("B", "secret12")], .ok none, .ok none, .ok none, .ok none⟩

/-- Environment with only the clean required variable. -/
def wEnvClean : World :=
  ⟨[("A", "abcdefghij")], .ok none, .ok none, .ok none, .ok none⟩

/-- C3 counterexample: every required variable is set, long enough and free
of insecure substrings, yet the status is `warn` and `insecure` is
non-empty — the insecure-pattern loop scans *all* environment variables,
not only the required ones (EnvironmentVariables.js line 31). -/
theorem env_pass_counterexample :
    envLookup [("A", "abcdefghij"), ("B", "secret12")] "A" = some "abcdefghij" ∧
    10 ≤ "abcdefghij".length ∧
    (["password", "secret", "key"].any fun p => jsIncludes "abcdefghij" p) = false ∧
    (modularRun cfgEnvReq wEnvExtra).checks.get .environmentVariables =
      some (.envVars .warn [] ["B"] 1) ∧
    Status.warn ≠ Status.pass :=
  ⟨by decide, by decide, by decide, by decide, by decide⟩

/-- C3 amended: if every required variable is set, non-empty and at least
the effective `minLength` long, and *no* environment variable (required or
not) has a truthy value that both lowercased contains a configured
insecure substring and is shorter than twice the effective `minLength`,
then the status is `pass` and both `missing` and `insecure` are empty. -/
theorem env_pass_amended (cfg : Config) (w : World) (ec : EnvCfg)
    (hcfg : cfg.environmentVariables = some ec) (hen : ec.enabled = true)
    (hreq : ∀ v ∈ jsOrList ec.required [], ∃ val, envLookup w.env v = some val ∧
      val ≠ "" ∧ jsOrNat ec.minLength 10 ≤ val.length)
    (hall : ∀ p ∈ w.env, p.2 ≠ "" →
      ((jsOrList ec.insecurePatterns ["password", "secret", "key"]).any
        fun pat => jsIncludes (jsToLower p.2) pat) = true →
      jsOrNat ec.minLength 10 * 2 ≤ p.2.length)
    (r : Results) :
    ∃ r2, EnvironmentVariables.run cfg w r = .ok r2 ∧
      r2.checks.get .environmentVariables = some (.envVars .pass [] []
        ((jsOrList ec.required []).length + (jsOrList ec.optionalVars []).length)) := by
  have hm : missingRequired w.env (jsOrList ec.required []) = [] := by
    refine List.filter_eq_nil_iff.mpr fun v hv => ?_
    obtain ⟨val, hval, hne, _⟩ := hreq v hv
    simp [jsFalsy, hval, hne]
  have hs : shortRequired w.env (jsOrList ec.required []) (jsOrNat ec.minLength 10) = [] := by
    refine List.filter_eq_nil_iff.mpr fun v hv => ?_
    obtain ⟨val, hval, hne, hlen⟩ := hreq v hv
    show ¬_ = true
    rw [hval]
    simp only [Bool.and_eq_true, Bool.not_eq_true, beq_eq_false_iff_ne,
      decide_eq_true_eq]
    rintro ⟨-, hlt⟩
    omega
  have hp : patternFlagged w.env
      (jsOrList ec.insecurePatterns ["password", "secret", "key"])
      (jsOrNat ec.minLength 10) = [] := by
    refine List.map_eq_nil_iff.mpr (List.filter_eq_nil_iff.mpr fun p hpmem => ?_)
    by_cases h2 : p.2 = ""
    · simp [h2]
    · by_cases h3 : ((jsOrList ec.insecurePatterns ["password", "secret", "key"]).any
          fun pat => jsIncludes (jsToLower p.2) pat) = true
      · have := hall p hpmem h2 h3
        simp only [h2, h3, Bool.and_eq_true, Bool.not_eq_true, beq_eq_false_iff_ne,
          ne_eq, not_false_eq_true, true_and, decide_eq_true_eq]
        intro hcon
        omega
      · simp only [Bool.and_eq_true, Bool.not_eq_true, decide_eq_true_eq]
        intro hcon
        exact h3 hcon.1.2
  have hrun : EnvironmentVariables.run cfg w r = .ok
      { r with
        checks :=
          r.checks.set .environmentVariables
            (Outcome.envVars
              (if (missingRequired w.env (jsOrList ec.required [])).length = 0 ∧
                  (shortRequired w.env (jsOrList ec.required [])
                      (jsOrNat ec.minLength 10) ++
                    patternFlagged w.env
                      (jsOrList ec.insecurePatterns ["password", "secret", "key"])
                      (jsOrNat ec.minLength 10)).length = 0
               then .pass else .warn)
              (missingRequired w.env (jsOrList ec.required []))
              (shortRequired w.env (jsOrList ec.required [])
                  (jsOrNat ec.minLength 10) ++
                patternFlagged w.env
                  (jsOrList ec.insecurePatterns ["password", "secret", "key"])
                  (jsOrNat ec.minLength 10))
              ((jsOrList ec.required []).length +
                (jsOrList ec.optionalVars []).length)) } := by
    simp only [EnvironmentVariables.run, hcfg, hen, Bool.not_true, Bool.false_eq_true,
      if_false]
  refine ⟨_, hrun, ?_⟩
  simp [ChecksMap.get_set_self, hm, hs, hp]

/-- C3 amended witness: with only the clean required variable in the
environment, the check passes with empty `missing` and `insecure`. -/
theorem env_pass_amended_witness :
    ∃ r2, EnvironmentVariables.run cfgEnvReq wEnvClean emptyResults = .ok r2 ∧
      r2.checks.get .environmentVariables = some (.envVars .pass [] [] 1) :=
  env_pass_amended cfgEnvReq wEnvClean ⟨true, some ["A"], none, none, none⟩ rfl rfl
    (by
      intro v hv
      simp only [jsOrList, List.mem_singleton] at hv
      subst hv
      exact ⟨"abcdefghij", rfl, by decide, by decide⟩)
    (by decide) emptyResults

/-!  ### C4: the insecure-pattern rule -/

/-- Modelled from the spec claim wording for C4: `s` case-insensitively
contains `sub` (both sides lowercased before the substring test). -/
def caseInsensContains (s sub : String) : Bool :=
  jsIncludes (jsToLower s) (jsToLower sub)

/-- Environment check enabled with the configured insecure pattern
`SECRET` (uppercase). -/
def cfgEnvUpper : Config :=
  ⟨none, none, some ⟨true, none, none, none, some ["SECRET"]⟩, none, none, none, none⟩

/-- One variable whose value contains `SECRET` and is shorter than twice
the minimum length. -/
def wEnvUpper : World :=
  ⟨[("X", "xxSECRETxx")], .ok none, .ok none, .ok none, .ok none⟩

/-- Two keys in an association list with no duplicate keys bind equal
values when they coincide. -/
theorem keys_nodup_val_eq (env : List (String × String)) (k v1 v2 : String)
    (hnd : (env.map Prod.fst).Nodup) (h1 : (k, v1) ∈ env) (h2 : (k, v2) ∈ env) :
    v1 = v2 := by
  induction env with
  | nil => cases h1
  | cons hd tl ih =>
    simp only [List.map_cons, List.nodup_cons] at hnd
    rcases List.mem_cons.mp h1 with h1h | h1t
    · rcases List.mem_cons.mp h2 with h2h | h2t
      · rw [← h1h] at h2h
        exact ((Prod.ext_iff.mp h2h).2).symm
      · exfalso
        apply hnd.1
        have hk : hd.1 = k := by rw [← h1h]
        rw [hk]
        simpa using List.mem_map_of_mem Prod.fst h2t
    · rcases List.mem_cons.mp h2 with h2h | h2t
      · exfalso
        apply hnd.1
        have hk : hd.1 = k := by rw [← h2h]
        rw [hk]
        simpa using List.mem_map_of_mem Prod.fst h1t
      · exact ih hnd.2 h1t h2t

/-- C4 counterexample: the value case-insensitively contains the
configured substring `SECRET` and is shorter than twice the minimum
length, yet nothing is flagged (`insecure = []`, status `pass`) — the code
lowercases only the value, so an uppercase configured pattern can never
match (EnvironmentVariables.js line 32). -/
theorem env_pattern_case_counterexample :
    caseInsensContains "xxSECRETxx" "SECRET" = true ∧
    "xxSECRETxx".length < 10 * 2 ∧
    "xxSECRETxx" ≠ "" ∧
    (modularRun cfgEnvUpper wEnvUpper).checks.get .environmentVariables =
      some (.envVars .pass [] [] 0) :=
  ⟨by decide, by decide, by decide, by decide⟩

/-- C4 amended: the insecure-pattern rule flags a variable iff its value is
truthy, its *lowercased* value contains (verbatim) at least one configured
insecure substring, and the value is shorter than twice the effective
minimum length; in particular (for an environment without duplicate keys)
a value at least twice the minimum length long is never flagged, and the
check's recorded `insecure` list is the short-required list followed by
the pattern-flagged list. -/
theorem env_pattern_rule_amended (env : List (String × String)) (pats : List String)
    (minLen : Nat) (k : String) :
    (k ∈ patternFlagged env pats minLen ↔
      ∃ val, (k, val) ∈ env ∧ val ≠ "" ∧
        (pats.any fun pat => jsIncludes (jsToLower val) pat) = true ∧
        val.length < minLen * 2) ∧
    ((env.map Prod.fst).Nodup → ∀ val, (k, val) ∈ env → minLen * 2 ≤ val.length →
      k ∉ patternFlagged env pats minLen) ∧
    (∀ (cfg : Config) (w : World) (ec : EnvCfg) (r : Results),
      cfg.environmentVariables = some ec → ec.enabled = true → w.env = env →
      ∃ r2 st, EnvironmentVariables.run cfg w r = .ok r2 ∧
        r2.checks.get .environmentVariables = some (.envVars st
          (missingRequired env (jsOrList ec.required []))
          (shortRequired env (jsOrList ec.required []) (jsOrNat ec.minLength 10) ++
            patternFlagged env
              (jsOrList ec.insecurePatterns ["password", "secret", "key"])
              (jsOrNat ec.minLength 10))
          ((jsOrList ec.required []).length + (jsOrList ec.optionalVars []).length))) := by
  have hiff : k ∈ patternFlagged env pats minLen ↔
      ∃ val, (k, val) ∈ env ∧ val ≠ "" ∧
        (pats.any fun pat => jsIncludes (jsToLower val) pat) = true ∧
        val.length < minLen * 2 := by
    simp only [patternFlagged, List.mem_map, List.mem_filter, Bool.and_eq_true,
      Bool.not_eq_true, beq_eq_false_iff_ne, decide_eq_true_eq]
    constructor
    · rintro ⟨⟨k2, val⟩, ⟨hmem, ⟨hne, hany⟩, hlt⟩, rfl⟩
      refine ⟨val, hmem, ?_, hany, hlt⟩
      simpa using hne
    · rintro ⟨val, hmem, hne, hany, hlt⟩
      refine ⟨(k, val), ⟨hmem, ⟨?_, hany⟩, hlt⟩, rfl⟩
      simpa using hne
  refine ⟨hiff, ?_, ?_⟩
  · intro hnd val hmem hge hk
    obtain ⟨val2, hmem2, _, _, hlt2⟩ := hiff.mp hk
    have hvv := keys_nodup_val_eq env k val val2 hnd hmem hmem2
    rw [hvv] at hge
    omega
  · intro cfg w ec r hcfg hen hwe
    subst hwe
    have hrun : EnvironmentVariables.run cfg w r = .ok
        { r with
          checks :=
            r.checks.set .environmentVariables
              (Outcome.envVars
                (if (missingRequired w.env (jsOrList ec.required [])).length = 0 ∧
                    (shortRequired w.env (jsOrList ec.required [])
                        (jsOrNat ec.minLength 10) ++
                      patternFlagged w.env
                        (jsOrList ec.insecurePatterns ["password", "secret", "key"])
                        (jsOrNat ec.minLength 10)).length = 0
                 then .pass else .warn)
                (missingRequired w.env (jsOrList ec.required []))
                (shortRequired w.env (jsOrList ec.required [])
                    (jsOrNat ec.minLength 10) ++
                  patternFlagged w.env
                    (jsOrList ec.insecurePatterns ["password", "secret", "key"])
                    (jsOrNat ec.minLength 10))
                ((jsOrList ec.required []).length +
                  (jsOrList ec.optionalVars []).length)) } := by
      simp only [EnvironmentVariables.run, hcfg, hen, Bool.not_true,
        Bool.false_eq_true, if_false]
    refine ⟨_,
      (if (missingRequired w.env (jsOrList ec.required [])).length = 0 ∧
          (shortRequired w.env (jsOrList ec.required []) (jsOrNat ec.minLength 10) ++
            patternFlagged w.env
              (jsOrList ec.insecurePatterns ["password", "secret", "key"])
              (jsOrNat ec.minLength 10)).length = 0
       then Status.pass else Status.warn),
      hrun, ?_⟩
    simp [ChecksMap.get_set_self]

/-- C4 amended witness: a long value containing `secret` is never flagged;
a short one is. -/
theorem env_pattern_rule_amended_witness :
    "X" ∉ patternFlagged [("X", "secret0123456789secret")] ["secret"] 10 ∧
    "Y" ∈ patternFlagged [("Y", "secret12")] ["secret"] 10 :=
  ⟨(env_pattern_rule_amended [("X", "secret0123456789secret")] ["secret"] 10 "X").2.1
      (by decide) "secret0123456789secret" (by decide) (by decide),
   (env_pattern_rule_amended [("Y", "secret12")] ["secret"] 10 "Y").1.mpr
      ⟨"secret12", by decide, by decide, by decide, by decide⟩⟩

/-!  ### C8: API file discovery

`allOfList` collects every file of a tree (path, filename, content),
regardless of patterns; `reorderList` re-enumerates every directory's
children through an arbitrary permutation oracle `σ` keyed by the
directory's path, modelling a filesystem that enumerates children in a
different order. -/

mutual

def allOfEntry (cur : String) : Entry → List (String × String × String)
  | .file n c => [(cur ++ "/" ++ n, n, c)]
  | .dir n ch => allOfList (cur ++ "/" ++ n) ch

def allOfList (cur : String) : List Entry → List (String × String × String)
  | [] => []
  | e :: rest => allOfEntry cur e ++ allOfList cur rest

end

mutual

def reorderEntry (σ : String → List Entry → List Entry) (cur : String) : Entry → Entry
  | .file n c => .file n c
  | .dir n ch => .dir n (σ (cur ++ "/" ++ n) (reorderList σ (cur ++ "/" ++ n) ch))

def reorderList (σ : String → List Entry → List Entry) (cur : String) :
    List Entry → List Entry
  | [] => []
  | e :: rest => reorderEntry σ cur e :: reorderList σ cur rest

end

/-- A whole observed API directory re-enumerated: `σ` applies to the root
listing and, recursively, to every subdirectory listing. -/
def reorderTop (σ : String → List Entry → List Entry) (dir : String)
    (ch : List Entry) : List Entry :=
  σ dir (reorderList σ dir ch)

mutual

theorem mem_filesOfEntry (patterns : List String) (cur p c : String) (e : Entry) :
    (p, c) ∈ filesOfEntry patterns cur e ↔
      ∃ n, (p, n, c) ∈ allOfEntry cur e ∧ n ∈ patterns := by
  match e with
  | .file n2 c2 =>
    by_cases hn : patterns.contains n2
    · simp_all [filesOfEntry, allOfEntry, List.elem_iff]
      aesop
    · simp_all [filesOfEntry, allOfEntry, List.elem_iff]
  | .dir n2 ch =>
    simpa [filesOfEntry, allOfEntry] using
      mem_filesOfList patterns (cur ++ "/" ++ n2) p c ch

theorem mem_filesOfList (patterns : List String) (cur p c : String) (ch : List Entry) :
    (p, c) ∈ filesOfList patterns cur ch ↔
      ∃ n, (p, n, c) ∈ allOfList cur ch ∧ n ∈ patterns := by
  match ch with
  | [] => simp [filesOfList, allOfList]
  | e :: rest =>
    simp only [filesOfList, allOfList, List.mem_append]
    rw [mem_filesOfEntry patterns cur p c e, mem_filesOfList patterns cur p c rest]
    constructor
    · rintro (⟨n, hn, hp⟩ | ⟨n, hn, hp⟩)
      · exact ⟨n, Or.inl hn, hp⟩
      · exact ⟨n, Or.inr hn, hp⟩
    · rintro ⟨n, hn | hn, hp⟩
      · exact Or.inl ⟨n, hn, hp⟩
      · exact Or.inr ⟨n, hn, hp⟩

end

/-- The number of discovered unprotected files below one entry. -/
def uCountE (auth patterns : List String) (cur : String) (e : Entry) : Nat :=
  ((filesOfEntry patterns cur e).filter fun f =>
    !auth.any fun m => jsIncludes f.2 m).length

/-- The number of discovered unprotected files below a children list. -/
def uCountL (auth patterns : List String) (cur : String) (ch : List Entry) : Nat :=
  ((filesOfList patterns cur ch).filter fun f =>
    !auth.any fun m => jsIncludes f.2 m).length

theorem uCountL_cons (auth patterns : List String) (cur : String) (e : Entry)
    (rest : List Entry) :
    uCountL auth patterns cur (e :: rest) =
      uCountE auth patterns cur e + uCountL auth patterns cur rest := by
  simp [uCountL, uCountE, filesOfList, List.filter_append]

theorem uCountL_eq_sum (auth patterns : List String) (cur : String) (ch : List Entry) :
    uCountL auth patterns cur ch = (ch.map (uCountE auth patterns cur)).sum := by
  induction ch with
  | nil => rfl
  | cons e rest ih => simp [uCountL_cons, ih]

theorem uCountL_perm (auth patterns : List String) (cur : String)
    {l₁ l₂ : List Entry} (h : l₁.Perm l₂) :
    uCountL auth patterns cur l₁ = uCountL auth patterns cur l₂ := by
  rw [uCountL_eq_sum, uCountL_eq_sum]
  exact (h.map (uCountE auth patterns cur)).sum_eq

mutual

theorem uCountE_reorder (auth patterns : List String)
    (σ : String → List Entry → List Entry) (hσ : ∀ p l, (σ p l).Perm l)
    (cur : String) (e : Entry) :
    uCountE auth patterns cur (reorderEntry σ cur e) = uCountE auth patterns cur e := by
  match e with
  | .file n c => rfl
  | .dir n ch =>
    show uCountL auth patterns (cur ++ "/" ++ n)
        (σ (cur ++ "/" ++ n) (reorderList σ (cur ++ "/" ++ n) ch)) =
      uCountL auth patterns (cur ++ "/" ++ n) ch
    rw [uCountL_perm auth patterns _ (hσ _ _)]
    exact uCountL_reorder auth patterns σ hσ (cur ++ "/" ++ n) ch

theorem uCountL_reorder (auth patterns : List String)
    (σ : String → List Entry → List Entry) (hσ : ∀ p l, (σ p l).Perm l)
    (cur : String) (ch : List Entry) :
    uCountL auth patterns cur (reorderList σ cur ch) = uCountL auth patterns cur ch := by
  match ch with
  | [] => rfl
  | e :: rest =>
    show uCountL auth patterns cur
        (reorderEntry σ cur e :: reorderList σ cur rest) = _
    rw [uCountL_cons, uCountL_cons, uCountE_reorder auth patterns σ hσ cur e,
      uCountL_reorder auth patterns σ hσ cur rest]

end

/-- C8: (1) a file is discovered iff its filename is exactly string-equal
to one of the configured pattern strings; (2) the recorded
`unprotectedEndpoints` equals the number of discovered files whose content
contains none of the configured auth-middleware substrings (and
`totalFiles` the number of discovered files); (3) that count is invariant
under re-enumerating every directory's children in any order. -/
theorem api_file_discovery (patterns : List String) :
    (∀ (cur p c : String) (ch : List Entry),
      (p, c) ∈ filesOfList patterns cur ch ↔
        ∃ n, (p, n, c) ∈ allOfList cur ch ∧ n ∈ patterns) ∧
    (∀ (cfg : Config) (w : World) (ac : ApiCfg) (children : List Entry) (r : Results),
      cfg.apiSecurity = some ac → ac.enabled = true →
      w.apiTree = .ok (some children) →
      jsOrList ac.filePatterns ["route.ts", "route.js"] = patterns →
      ∃ r2, ApiSecurity.run cfg w r = .ok r2 ∧
        ∀ st u mv tf, r2.checks.get .apiSecurity = some (.apiOut st u mv tf) →
          u = (filesOfList patterns (jsOrStr ac.apiDirectory "app/api")
                children).countP (fun f =>
                  !(jsOrList ac.authMiddleware ["withAuth", "withOptionalAuth"]).any
                    fun m => jsIncludes f.2 m) ∧
          tf = (filesOfList patterns (jsOrStr ac.apiDirectory "app/api")
                children).length) ∧
    (∀ (auth : List String) (dir : String) (ch : List Entry)
        (σ : String → List Entry → List Entry), (∀ p l, (σ p l).Perm l) →
      uCountL auth patterns dir (reorderTop σ dir ch) =
        uCountL auth patterns dir ch) := by
  refine ⟨fun cur p c ch => mem_filesOfList patterns cur p c ch, ?_, ?_⟩
  · intro cfg w ac children r hcfg hen htree hpat
    have hrun : ApiSecurity.run cfg w r = .ok
        { r with
          checks :=
            r.checks.set .apiSecurity
              (Outcome.apiOut
                (if ((filesOfList (jsOrList ac.filePatterns ["route.ts", "route.js"])
                      (jsOrStr ac.apiDirectory "app/api") children).filter fun f =>
                        !(jsOrList ac.authMiddleware
                            ["withAuth", "withOptionalAuth"]).any
                          fun m => jsIncludes f.2 m).length = 0
                 then .pass else .warn)
                ((filesOfList (jsOrList ac.filePatterns ["route.ts", "route.js"])
                  (jsOrStr ac.apiDirectory "app/api") children).filter fun f =>
                    !(jsOrList ac.authMiddleware ["withAuth", "withOptionalAuth"]).any
                      fun m => jsIncludes f.2 m).length
                ((filesOfList (jsOrList ac.filePatterns ["route.ts", "route.js"])
                  (jsOrStr ac.apiDirectory "app/api") children).filter fun f =>
                    !(jsOrList ac.validationMiddleware ["withValidation", "zod"]).any
                      fun m => jsIncludes f.2 m).length
                (filesOfList (jsOrList ac.filePatterns ["route.ts", "route.js"])
                  (jsOrStr ac.apiDirectory "app/api") children).length) } := by
      simp only [ApiSecurity.run, hcfg, hen, Bool.not_true, Bool.false_eq_true,
        if_false, htree]
    refine ⟨_, hrun, ?_⟩
    intro st u mv tf hget
    simp only [ChecksMap.get_set_self, Option.some.injEq, Outcome.apiOut.injEq] at hget
    rcases hget with ⟨-, hu, -, htf⟩
    subst hpat
    exact ⟨by rw [← hu, List.countP_eq_length_filter], htf.symm⟩
  · intro auth dir ch σ hσ
    show uCountL auth patterns dir (σ dir (reorderList σ dir ch)) = _
    rw [uCountL_perm auth patterns _ (hσ _ _)]
    exact uCountL_reorder auth patterns σ hσ dir ch

/-- C8 witness: a nested fixture — only `route.ts` files are discovered
(by exact filename equality), the unprotected count is 1, and a concrete
reversing re-enumeration leaves the count unchanged. -/
theorem api_file_discovery_witness :
    (("app/api/sub/route.ts", "no auth here") ∈
        filesOfList ["route.ts"] "app/api"
          [Entry.dir "sub" [Entry.file "route.ts" "no auth here",
            Entry.file "other.ts" "x"],
           Entry.file "route.ts" "uses withAuth"] ↔
      ∃ n, ("app/api/sub/route.ts", n, "no auth here") ∈
          allOfList "app/api"
            [Entry.dir "sub" [Entry.file "route.ts" "no auth here",
              Entry.file "other.ts" "x"],
             Entry.file "route.ts" "uses withAuth"] ∧ n ∈ ["route.ts"]) ∧
    uCountL ["withAuth"] ["route.ts"] "app/api"
      (reorderTop (fun _ l => l.reverse) "app/api"
        [Entry.dir "sub" [Entry.file "route.ts" "no auth here",
          Entry.file "other.ts" "x"],
         Entry.file "route.ts" "uses withAuth"]) =
      uCountL ["withAuth"] ["route.ts"] "app/api"
        [Entry.dir "sub" [Entry.file "route.ts" "no auth here",
          Entry.file "other.ts" "x"],
         Entry.file "route.ts" "uses withAuth"] :=
  ⟨(api_file_discovery ["route.ts"]).1 "app/api" "app/api/sub/route.ts" "no auth here"
      [Entry.dir "sub" [Entry.file "route.ts" "no auth here",
        Entry.file "other.ts" "x"],
       Entry.file "route.ts" "uses withAuth"],
   (api_file_discovery ["route.ts"]).2.2 ["withAuth"] "app/api"
      [Entry.dir "sub" [Entry.file "route.ts" "no auth here",
        Entry.file "other.ts" "x"],
       Entry.file "route.ts" "uses withAuth"]
      (fun _ l => l.reverse) (fun _ l => l.reverse_perm)⟩

/-!  ### C9: recommendation deriver -/

/-- Output block present with recommendations enabled. -/
def cfgRecOn : Config := ⟨none, none, none, none, none, none, some ⟨true⟩⟩

/-- C9: the deriver appends nothing when `output.includeRecommendations`
is falsy; otherwise it appends exactly `derivedRecs` — at most one
recommendation per category, in the fixed order dependencies, environment,
api, headers, database with priorities high/high/high/medium/medium, one
per triggered gate — so the appended count equals the number of triggered
categories and never exceeds five; the check loop itself never appends
recommendations, so a full run's recommendation list is exactly the
derived list. -/
theorem recommendations_spec (cfg : Config) (r : Results) :
    ((cfg.output.map OutputCfg.includeRecommendations).getD false = false →
      (generateRecommendations cfg r).recommendations = r.recommendations) ∧
    ((cfg.output.map OutputCfg.includeRecommendations).getD false = true →
      (generateRecommendations cfg r).recommendations =
        r.recommendations ++ derivedRecs cfg r) ∧
    (derivedRecs cfg r).length =
      [depGate r, envGate r, apiGate r, headersGate r, dbGate r].count true ∧
    (derivedRecs cfg r).length ≤ 5 ∧
    List.Sublist ((derivedRecs cfg r).map fun x => (x.category, x.priority))
      [("dependencies", "high"), ("environment", "high"), ("api", "high"),
       ("headers", "medium"), ("database", "medium")] ∧
    (∀ w, (modularChecks cfg w).recommendations = []) ∧
    (∀ w, (cfg.output.map OutputCfg.includeRecommendations).getD false = true →
      (modularRun cfg w).recommendations = derivedRecs cfg (modularChecks cfg w)) := by
  have h1 : (cfg.output.map OutputCfg.includeRecommendations).getD false = false →
      ∀ r2, (generateRecommendations cfg r2).recommendations = r2.recommendations := by
    intro hi r2
    rcases ho : cfg.output with _ | o
    · simp [generateRecommendations, ho]
    · rw [ho] at hi
      simp only [Option.map_some', Option.getD_some] at hi
      simp [generateRecommendations, ho, hi]
  have h2 : (cfg.output.map OutputCfg.includeRecommendations).getD false = true →
      ∀ r2, (generateRecommendations cfg r2).recommendations =
        r2.recommendations ++ derivedRecs cfg r2 := by
    intro hi r2
    rcases ho : cfg.output with _ | o
    · rw [ho] at hi
      simp at hi
    · rw [ho] at hi
      simp only [Option.map_some', Option.getD_some] at hi
      simp [generateRecommendations, ho, hi]
  refine ⟨fun hi => h1 hi r, fun hi => h2 hi r, ?_, ?_, ?_, ?_, ?_⟩
  · by_cases g1 : depGate r <;> by_cases g2 : envGate r <;>
      by_cases g3 : apiGate r <;> by_cases g4 : headersGate r <;>
      by_cases g5 : dbGate r <;>
      simp [derivedRecs, g1, g2, g3, g4, g5]
  · by_cases g1 : depGate r <;> by_cases g2 : envGate r <;>
      by_cases g3 : apiGate r <;> by_cases g4 : headersGate r <;>
      by_cases g5 : dbGate r <;>
      simp [derivedRecs, g1, g2, g3, g4, g5]
  · by_cases g1 : depGate r <;> by_cases g2 : envGate r <;>
      by_cases g3 : apiGate r <;> by_cases g4 : headersGate r <;>
      by_cases g5 : dbGate r <;>
      · simp only [derivedRecs, g1, g2, g3, g4, g5, if_true, Bool.false_eq_true,
          if_false, List.append_nil, List.nil_append, List.map_append,
          List.map_cons, List.map_nil]
        decide
  · exact fun w => modularChecks_recommendations cfg w
  · intro w hi
    rw [modularRun, h2 hi (modularChecks cfg w), modularChecks_recommendations cfg w,
      List.nil_append]

/-- C9 witness: with recommendations disabled nothing is appended; with
them enabled the appended list is `derivedRecs`; the check loop appends
none. -/
theorem recommendations_spec_witness :
    ((generateRecommendations cfgAllOff emptyResults).recommendations =
      emptyResults.recommendations) ∧
    ((generateRecommendations cfgRecOn emptyResults).recommendations =
      emptyResults.recommendations ++ derivedRecs cfgRecOn emptyResults) ∧
    (modularChecks cfgRecOn wEmpty).recommendations = [] :=
  ⟨(recommendations_spec cfgAllOff emptyResults).1 rfl,
   (recommendations_spec cfgRecOn emptyResults).2.1 rfl,
   (recommendations_spec cfgRecOn emptyResults).2.2.2.2.2.1 wEmpty⟩

/-!  ### C10: legacy monolith vs modular implementation -/

instance : DecidableEq (Except String Results) := fun a b =>
  match a, b with
  | .error m1, .error m2 =>
    if h : m1 = m2 then isTrue (by rw [h]) else isFalse (by simp [h])
  | .ok r1, .ok r2 =>
    if h : r1 = r2 then isTrue (by rw [h]) else isFalse (by simp [h])
  | .error _, .ok _ => isFalse (by simp)
  | .ok _, .error _ => isFalse (by simp)

/-- Each legacy check method is extensionally the same function as the
corresponding modular check class (their sources are line-for-line
identical). -/
theorem legacyCheck_eq_runCheck (c : CheckName) (cfg : Config) (w : World)
    (r : Results) : legacyCheck c cfg w r = runCheck c cfg w r := by
  cases c <;> rfl

/-- When the legacy loop (no try/catch) completes without an escaping
error, the modular loop (with try/catch) computes the same accumulator. -/
theorem legacy_fold_ok (cfg : Config) (w : World) : ∀ (names : List CheckName)
    (r0 racc : Results),
    List.foldlM (legacyStep cfg w) r0 names = Except.ok racc →
    List.foldl (modularStep cfg w) r0 names = racc := by
  intro names
  induction names with
  | nil =>
    intro r0 racc h
    simp only [List.foldlM_nil] at h
    cases h
    rfl
  | cons c rest ih =>
    intro r0 racc h
    rw [List.foldlM_cons] at h
    cases hstep : legacyStep cfg w r0 c with
    | error m =>
      rw [hstep] at h
      simp [Bind.bind, Except.bind] at h
    | ok r1 =>
      rw [hstep] at h
      simp only [Bind.bind, Except.bind] at h
      have hm : modularStep cfg w r0 c = r1 := by
        unfold legacyStep at hstep
        unfold modularStep
        by_cases he : cfg.enabledFor c
        · rw [if_pos he] at hstep
          rw [legacyCheck_eq_runCheck] at hstep
          simp [he, hstep]
        · rw [if_neg he] at hstep
          cases hstep
          simp [he]
      rw [List.foldl_cons, hm]
      exact ih r1 racc h

/-- C10 amended: whenever the legacy monolithic run completes (no enabled
check lets an exception escape), the modular run produces the identical
accumulator; when a check does throw outside the dependency audit's
internal try/catch, the legacy run aborts while the modular run records an
error outcome and continues (see the counterexample). -/
theorem legacy_refines_modular (cfg : Config) (w : World) (r : Results)
    (h : legacyRun cfg w = Except.ok r) : modularRun cfg w = r := by
  unfold legacyRun at h
  cases hf : List.foldlM (legacyStep cfg w) emptyResults checkOrder with
  | error m =>
    rw [hf] at h
    simp [Bind.bind, Except.bind] at h
  | ok racc =>
    rw [hf] at h
    simp only [Bind.bind, Except.bind, pure, Except.pure, Except.ok.injEq] at h
    rw [modularRun, modularChecks, legacy_fold_ok cfg w checkOrder emptyResults racc hf]
    exact h

/-- C10 counterexample: with the headers-file read throwing, the legacy
run rejects with the error (no accumulator is produced, later checks and
the deriver never run), while the modular run completes and records the
error outcome — the two implementations are not equivalent. -/
theorem legacy_modular_divergence :
    legacyRun cfgHeadersOnly wHeadersBoom =
      Except.error "EACCES: permission denied" ∧
    (modularRun cfgHeadersOnly wHeadersBoom).checks.get .securityHeaders =
      some (.errorOut "EACCES: permission denied") ∧
    legacyRun cfgHeadersOnly wHeadersBoom ≠
      Except.ok (modularRun cfgHeadersOnly wHeadersBoom) :=
  ⟨by decide, by decide, by decide⟩

/-- C10 amended witness: on a world where every check completes, the two
implementations agree on the whole accumulator. -/
theorem legacy_refines_modular_witness :
    modularRun cfgEnvOnly wEmpty =
      ⟨⟨none, some (.envVars .pass [] [] 0), none, none, none⟩, [], [], []⟩ :=
  legacy_refines_modular cfgEnvOnly wEmpty
    ⟨⟨none, some (.envVars .pass [] [] 0), none, none, none⟩, [], [], []⟩
    (by decide)

end SecurityMonitor
